import Mathlib

/-!
# Verification of `design-patterns`

A shallow embedding of the Go packages `registry`, `mediator`, `singleton` and
`funcionaloption`, followed by theorems about them.

Conventions of the embedding:

* a Go method with a pointer receiver becomes a function that takes the
  receiver's state and returns the new state (explicit state passing);
* a Go run-time panic is the `Except.error` case of `Except GoPanic _`;
* a Go `map` is either `nil` (`none`) or a finite list of key/value entries;
* pointers are natural-number addresses into an explicit heap.
-/

set_option autoImplicit false

/-! ## Go run-time notions shared by the packages -/

/-- The run-time panics of Go that the embedded code can raise. -/
inductive GoPanic where
  /-- Raised by `m[k] = v` when `m` is a nil map. -/
  | assignmentToEntryInNilMap
  /-- Raised by a field access or a call through a nil pointer, interface or func. -/
  | nilDereference
  deriving DecidableEq, Repr

/-- A value of the Go type `any`: the nil interface, or a dynamic value. A few
dynamic types stand for all of them; the registry never inspects the value. -/
inductive GoAny where
  | nil
  | int (n : Int)
  | str (s : String)
  | bool (b : Bool)
  deriving DecidableEq, Repr

/-- A Go func value of type `func(*α)`: the nil func (`none`), or a function
from the pointee before the call to the pointee after it. -/
abbrev GoFunc (α : Type) := Option (α → α)

/-- A value of the Go type `map[string]any`: `none` is the nil map (the zero
value of the type), `some es` a map made by `make` or a literal, holding the
entries `es`. -/
abbrev GoMap := Option (List (String × GoAny))

/-- The entries stored under `key` in a list of map entries. -/
def entriesFor (es : List (String × GoAny)) (key : String) : List (String × GoAny) :=
  es.filter (fun e => decide (e.1 = key))

/-- The first value stored under `key` in a list of entries. -/
def findEntry : List (String × GoAny) → String → Option GoAny
  | [], _ => none
  | (k, v) :: es, key => if k = key then some v else findEntry es key

/-- Whether `key` is present in the map, as in Go `_, ok := m[key]`. A nil map
has no key. -/
def mapHasKey (m : GoMap) (key : String) : Bool :=
  match m with
  | none => false
  | some es => (findEntry es key).isSome

/-- The Go index expression `m[key]` read as a value: the stored value, or the
zero value of `any` (nil) when the key is absent. Reading a nil map is allowed
and yields the zero value. -/
def mapIndex (m : GoMap) (key : String) : GoAny :=
  match m with
  | none => GoAny.nil
  | some es =>
    match findEntry es key with
    | some v => v
    | none => GoAny.nil

/-- The Go assignment `m[key] = value`: panics on a nil map, otherwise the entry
for `key` is inserted or replaced. -/
def mapAssign (m : GoMap) (key : String) (value : GoAny) : Except GoPanic GoMap :=
  match m with
  | none => Except.error GoPanic.assignmentToEntryInNilMap
  | some es => Except.ok (some ((key, value) :: es.filter (fun e => !decide (e.1 = key))))

/-! ## Package `registry` (`02-behavioral/registry/registry.go`) -/

namespace registry

/-- The struct `Registry`, with its one field `registry map[string]any`. -/
structure Registry where
  registry : GoMap
  deriving DecidableEq, Repr

/-- The zero value `Registry{}`: the map field is the nil map. The package
has no constructor and the field is unexported, so this is the value a client
of the package starts from. -/
def zeroRegistry : Registry := { registry := none }

/-- The method `Register`: `r.registry[key] = value`. Returns the registry after the call,
or the panic raised by the assignment. -/
def Register (r : Registry) (key : String) (value : GoAny) : Except GoPanic Registry :=
  match mapAssign r.registry key value with
  | Except.error e => Except.error e
  | Except.ok m => Except.ok { registry := m }

/-- The method `Get`: `return r.registry[key]`. Returns the value together with the
registry after the call. -/
def Get (r : Registry) (key : String) : Except GoPanic (GoAny × Registry) :=
  Except.ok (mapIndex r.registry key, r)

/-- The entries the registry's map holds for `key`. -/
def entries (r : Registry) (key : String) : List (String × GoAny) :=
  match r.registry with
  | none => []
  | some es => entriesFor es key

/-- The number of entries the registry's map holds for `key`. -/
def entryCount (r : Registry) (key : String) : Nat :=
  (entries r key).length

end registry

/-! ## Package `mediator` (`02-behavioral/mediator`)

Only `mediator_test.go` of this package is available; the types and methods
that the test calls are modelled from the specification. -/

namespace mediator

/-- Modelled from the spec: the error `NotRegistered` of the error taxonomy, raised
when a Participant sends before it is attached to any Mediator (the file that
declares the participant type is missing). -/
inductive MediatorError where
  | NotRegistered
  deriving DecidableEq, Repr

/-- Modelled from the spec: the Participant type `User` built by `NewUser`, of
the missing file that declares it. Its attributes are its name and a
nullable reference to the Mediator it is attached to. -/
structure User where
  name : String
  mediator : Option Nat
  deriving DecidableEq, Repr

/-- Modelled from the spec: the type `ConcreteMediator` built by
`NewConcreteMediator`, of the missing file that declares it. It holds the
references to its Participants, ordered by registration. -/
structure ConcreteMediator where
  colleagues : List Nat
  deriving DecidableEq, Repr

/-- The program state the mediator package works on: the heap of `User` objects
and of `ConcreteMediator` objects (a reference is an address, `nextUser` and
`nextMediator` are the next free addresses), the log of `Receive` invocations
(recipient, message) and the lines written to standard output. -/
structure World where
  users : Nat → User
  nextUser : Nat
  mediators : Nat → ConcreteMediator
  nextMediator : Nat
  calls : List (Nat × String)
  out : List String

/-- The state before any object is allocated and before anything is printed. -/
def World.init : World :=
  { users := fun _ => { name := "", mediator := none }
    nextUser := 0
    mediators := fun _ => { colleagues := [] }
    nextMediator := 0
    calls := []
    out := [] }

/-- Modelled from the spec: the constructor `NewConcreteMediator` of the missing
mediator source; it allocates a Mediator with an empty membership list, and
returns its reference. -/
def NewConcreteMediator (w : World) : Nat × World :=
  (w.nextMediator,
    { w with
      mediators := Function.update w.mediators w.nextMediator { colleagues := [] }
      nextMediator := w.nextMediator + 1 })

/-- Modelled from the spec: the constructor `NewUser` of the missing mediator
source; it allocates a Participant with the given name, attached to no
Mediator, and returns its reference. -/
def NewUser (w : World) (name : String) : Nat × World :=
  (w.nextUser,
    { w with
      users := Function.update w.users w.nextUser { name := name, mediator := none }
      nextUser := w.nextUser + 1 })

/-- Modelled from the spec: the method `AddColleague` of the missing mediator
source; it appends `participant` to the membership list of mediator `m` if it is
not already present, and does nothing otherwise. -/
def AddColleague (w : World) (m : Nat) (participant : Nat) : World :=
  if participant ∈ (w.mediators m).colleagues then w
  else
    { w with
      mediators := Function.update w.mediators m
        { colleagues := (w.mediators m).colleagues ++ [participant] } }

/-- Modelled from the spec: the method `SetMidiator` of the missing mediator
source (the name is the test's); it attaches Participant `u` to Mediator `m`. -/
def SetMidiator (w : World) (u : Nat) (m : Nat) : World :=
  { w with users := Function.update w.users u { (w.users u) with mediator := some m } }

/-- Modelled from the spec: the line `[Name] Received message: <message>` that `Receive`
of the missing mediator source prints for a Participant named `name`. -/
def receivedLine (name : String) (message : String) : String :=
  "[" ++ name ++ "] Received message: " ++ message

/-- Modelled from the spec: the method `Receive` of the missing mediator source,
invoked by the Mediator during a broadcast; the Participant prints
`[Name] Received message: <message>`. The invocation is logged in `calls`. -/
def Receive (w : World) (u : Nat) (message : String) : World :=
  { w with
    calls := w.calls ++ [(u, message)]
    out := w.out ++ [receivedLine (w.users u).name message] }

/-- Modelled from the spec: the loop of `Broadcast` of the missing mediator source, over
the membership list read when the loop starts; the sender is skipped, every other
member receives the message. -/
def broadcastLoop (sender : Nat) (message : String) : List Nat → World → World
  | [], w => w
  | c :: cs, w =>
    if c = sender then broadcastLoop sender message cs w
    else broadcastLoop sender message cs (Receive w c message)

/-- Modelled from the spec: the method `Broadcast` of the missing mediator source;
it delivers `message` to every registered Participant of mediator `m` except
`sender`, in registration order, each delivery being a call of `Receive`. -/
def Broadcast (w : World) (m : Nat) (sender : Nat) (message : String) : World :=
  broadcastLoop sender message (w.mediators m).colleagues w

/-- Modelled from the spec: the method `SendMessage` of the missing mediator source;
it delegates to the Participant's Mediator with the Participant itself as sender,
and fails with `NotRegistered` when the Participant is attached to no Mediator. -/
def SendMessage (w : World) (u : Nat) (message : String) : Except MediatorError World :=
  match (w.users u).mediator with
  | none => Except.error MediatorError.NotRegistered
  | some m => Except.ok (Broadcast w m u message)

/-- A sequence of `AddColleague` calls on mediator `m`, in the order of the list. -/
def addColleagues (w : World) (m : Nat) : List Nat → World
  | [] => w
  | c :: cs => addColleagues (AddColleague w m c) m cs

/-- The states a program can reach from the initial state with the operations of the package. -/
inductive Reachable : World → Prop where
  | init : Reachable World.init
  | newMediator (w : World) : Reachable w → Reachable (NewConcreteMediator w).2
  | newUser (w : World) (name : String) : Reachable w → Reachable (NewUser w name).2
  | addColleague (w : World) (m c : Nat) : Reachable w → Reachable (AddColleague w m c)
  | setMidiator (w : World) (u m : Nat) : Reachable w → Reachable (SetMidiator w u m)
  | sendMessage (w w1 : World) (u : Nat) (message : String) :
      Reachable w → SendMessage w u message = Except.ok w1 → Reachable w1

/-- The state after the set-up of `ExampleMediator` (mediator_test.go, lines 4 to 19):
one mediator, the users Alice, Bob and Charlie added in that order, each attached
to the mediator. The references are those the constructors return. -/
def exampleSetup : (Nat × Nat × Nat) × World :=
  let r0 := NewConcreteMediator World.init
  let r1 := NewUser r0.2 "Alice"
  let r2 := NewUser r1.2 "Bob"
  let r3 := NewUser r2.2 "Charlie"
  let w := AddColleague r3.2 r0.1 r1.1
  let w := AddColleague w r0.1 r2.1
  let w := AddColleague w r0.1 r3.1
  let w := SetMidiator w r1.1 r0.1
  let w := SetMidiator w r2.1 r0.1
  let w := SetMidiator w r3.1 r0.1
  ((r1.1, r2.1, r3.1), w)

/-- The test `ExampleMediator` (mediator_test.go): the set-up, then the three
`SendMessage` calls of lines 22 to 24. The result is the lines printed. -/
def ExampleMediator : Except MediatorError (List String) :=
  match SendMessage exampleSetup.2 exampleSetup.1.1 "Hello, everyone!" with
  | Except.error e => Except.error e
  | Except.ok w1 =>
    match SendMessage w1 exampleSetup.1.2.1 "Hi, there!" with
    | Except.error e => Except.error e
    | Except.ok w2 =>
      match SendMessage w2 exampleSetup.1.2.2 "Hey, guys!" with
      | Except.error e => Except.error e
      | Except.ok w3 => Except.ok w3.out

end mediator

/-! ## Package `singleton` (`01-creational/singleton/eager.go`) -/

namespace singleton

/-- The value of Go `int` (64 bits, two's complement) that the integer `i` wraps to. -/
def wrapInt (i : Int) : Int := (i + 2 ^ 63) % 2 ^ 64 - 2 ^ 63

/-- The struct `Eager`, with its one field `count int`. -/
structure Eager where
  count : Int
  deriving DecidableEq, Repr

/-- The state of the package: the heap of `Eager` objects (a pointer is an
address, `next` the next free one) and the package variable `eager *Eager`,
where `none` is the nil pointer. -/
structure State where
  heap : Nat → Eager
  next : Nat
  eager : Option Nat

/-- The state when the program starts: `var eager *Eager` is nil. -/
def State.init : State :=
  { heap := fun _ => { count := 0 }, next := 0, eager := none }

/-- The method `Inc`: `e.count++` through the pointer `e`; a nil receiver panics. -/
def Inc (s : State) (e : Option Nat) : Except GoPanic State :=
  match e with
  | none => Except.error GoPanic.nilDereference
  | some p =>
    Except.ok { s with heap := Function.update s.heap p { count := wrapInt ((s.heap p).count + 1) } }

/-- The function `InitEager`: `eager = &Eager{count: count}`, a fresh object. -/
def InitEager (s : State) (count : Int) : State :=
  { heap := Function.update s.heap s.next { count := count }
    next := s.next + 1
    eager := some s.next }

/-- The function `GetEager`: `return eager`. Returns the pointer and the state after the call. -/
def GetEager (s : State) : Option Nat × State :=
  (s.eager, s)

/-- The comparison `assert.Equal` makes of two `*Eager` pointers: both nil, or
both non-nil with equal pointees. -/
def assertEqual (s : State) (p q : Option Nat) : Bool :=
  match p, q with
  | none, none => true
  | some a, some b => decide (s.heap a = s.heap b)
  | _, _ => false

/-- The tests of eager_test.go: `TestMain` runs `InitEager(3)`, then `TestGetEager`
allocates `&Eager{count: 3}`, calls `GetEager` and asserts the two are equal.
The result is whether the assertion holds. -/
def TestGetEager : Bool :=
  let s0 := InitEager State.init 3
  let s1 : State := { s0 with heap := Function.update s0.heap s0.next { count := 3 }, next := s0.next + 1 }
  let eager := some s0.next
  let r := GetEager s1
  assertEqual r.2 r.1 eager

/-- The method `Inc` called `k` times in a row through the same pointer `e`. -/
def incTimes (e : Option Nat) : Nat → State → Except GoPanic State
  | 0, s => Except.ok s
  | k + 1, s =>
    match Inc s e with
    | Except.error err => Except.error err
    | Except.ok s1 => incTimes e k s1

end singleton

/-! ## Package `funcionaloption` (`01-creational/funcionaloption/functionaloption.go`) -/

namespace http

/-- The struct `http.Client` of the Go standard library: the fields `Transport`,
`CheckRedirect` and `Jar` (nil, or a reference) and `Timeout`. -/
structure Client where
  Transport : Option Nat
  CheckRedirect : Option Nat
  Jar : Option Nat
  Timeout : Int
  deriving DecidableEq, Repr

end http

namespace funcionaloption

/-- The constant `time.Second`, a `time.Duration` counted in nanoseconds. -/
def Second : Int := 1000000000

/-- The struct `HTTPClient`, with its one field `Timeout time.Duration`. -/
structure HTTPClient where
  Timeout : Int
  deriving DecidableEq, Repr

/-- The function `DefaultHTTPClient`. -/
def DefaultHTTPClient : HTTPClient :=
  { Timeout := 10 * Second }

/-- The type `Option`, `func(*HTTPClient)`: the nil func (`none`), or a function
that updates the client it points to. -/
abbrev Option := GoFunc HTTPClient

/-- The function `WithTimeout`. -/
def WithTimeout (timeout : Int) : Option :=
  some (fun hc => { hc with Timeout := timeout })

/-- The call `opt(&httpClient)`: calling a nil func panics. -/
def callOption (opt : Option) (hc : HTTPClient) : Except GoPanic HTTPClient :=
  match opt with
  | none => Except.error GoPanic.nilDereference
  | some f => Except.ok (f hc)

/-- The loop `for _, opt := range opts { opt(&httpClient) }` of `NewHTTPClient`. -/
def applyOptions : List Option → HTTPClient → Except GoPanic HTTPClient
  | [], hc => Except.ok hc
  | opt :: opts, hc =>
    match callOption opt hc with
    | Except.error e => Except.error e
    | Except.ok hc1 => applyOptions opts hc1

/-- The function `NewHTTPClient`. -/
def NewHTTPClient (opts : List Option) : Except GoPanic http.Client :=
  match applyOptions opts DefaultHTTPClient with
  | Except.error e => Except.error e
  | Except.ok httpClient =>
    Except.ok
      { Transport := none, CheckRedirect := none, Jar := none, Timeout := httpClient.Timeout }

end funcionaloption

/-! ## Lemmas on maps -/

theorem findEntry_filter_ne (es : List (String × GoAny)) (k key : String) (h : key ≠ k) :
    findEntry (es.filter (fun e => !decide (e.1 = k))) key = findEntry es key := by
  induction es with
  | nil => rfl
  | cons e es ih =>
    obtain ⟨a, b⟩ := e
    by_cases hak : a = k
    · subst hak
      have hne : ¬ a = key := fun h2 => h h2.symm
      simp [findEntry, hne, ih]
    · simp [List.filter_cons, hak, findEntry, ih]

theorem entriesFor_filter_ne (es : List (String × GoAny)) (k : String) :
    entriesFor (es.filter (fun e => !decide (e.1 = k))) k = [] := by
  unfold entriesFor
  rw [List.filter_filter]
  apply List.filter_eq_nil_iff.mpr
  intro e _
  by_cases h : e.1 = k <;> simp [h]

/-! ## Theorems on `registry` -/

namespace registry

/-- C1: for every Registry holding an initialised map (any contents), every key
`k` and value `v`, `Register(k, v)` returns normally and a following `Get(k)`
returns exactly `v`. -/
theorem get_after_register (r : Registry) (k : String) (v : GoAny)
    (hinit : r.registry ≠ none) :
    ∃ r1, Register r k v = Except.ok r1 ∧ Get r1 k = Except.ok (v, r1) := by
  obtain ⟨m⟩ := r
  cases m with
  | none => exact absurd rfl hinit
  | some es =>
    refine ⟨_, rfl, ?_⟩
    simp [Get, mapIndex, findEntry]

theorem get_after_register_witness :
    (Registry.mk (some [("a", GoAny.int 1), ("b", GoAny.nil)])).registry ≠ none ∧
    ∃ r1, Register (Registry.mk (some [("a", GoAny.int 1), ("b", GoAny.nil)])) "a"
        (GoAny.str "x") = Except.ok r1 ∧ Get r1 "a" = Except.ok (GoAny.str "x", r1) :=
  ⟨by decide, get_after_register _ "a" (GoAny.str "x") (by decide)⟩

/-- C2: `Register` on the zero value `Registry{}`, the only Registry a client of
the package can create, does not complete: the assignment into the nil map
panics, for every key and value. -/
theorem register_zero_value_panics (k : String) (v : GoAny) :
    Register zeroRegistry k v = Except.error GoPanic.assignmentToEntryInNilMap := by
  rfl

/-- C3: for every Registry, the zero value with its nil map included, and every
key `k` that is not present in its map, `Get(k)` returns normally, and what it
returns is nil. -/
theorem get_absent_key (r : Registry) (k : String)
    (habsent : mapHasKey r.registry k = false) :
    Get r k = Except.ok (GoAny.nil, r) := by
  obtain ⟨m⟩ := r
  cases m with
  | none => rfl
  | some es =>
    simp only [mapHasKey] at habsent
    cases hf : findEntry es k with
    | none => simp [Get, mapIndex, hf]
    | some x => simp [hf] at habsent

theorem get_absent_key_witness :
    (mapHasKey zeroRegistry.registry "a" = false ∧
      Get zeroRegistry "a" = Except.ok (GoAny.nil, zeroRegistry)) ∧
    (mapHasKey (Registry.mk (some [("b", GoAny.int 2)])).registry "a" = false ∧
      Get (Registry.mk (some [("b", GoAny.int 2)])) "a" =
        Except.ok (GoAny.nil, Registry.mk (some [("b", GoAny.int 2)]))) :=
  ⟨⟨by decide, get_absent_key zeroRegistry "a" (by decide)⟩,
   ⟨by decide, get_absent_key _ "a" (by decide)⟩⟩

/-- C4: last write wins. For every Registry holding an initialised map, every key
`k` and all values `v` and `v2`, `Register(k, v)` followed by `Register(k, v2)`
both return normally, after which `Get(k)` returns `v2` and the map holds exactly
one entry for `k`, the entry `(k, v2)`. -/
theorem last_write_wins (r : Registry) (k : String) (v v2 : GoAny)
    (hinit : r.registry ≠ none) :
    ∃ r1 r2, Register r k v = Except.ok r1 ∧ Register r1 k v2 = Except.ok r2 ∧
      Get r2 k = Except.ok (v2, r2) ∧ entryCount r2 k = 1 ∧ entries r2 k = [(k, v2)] := by
  obtain ⟨m⟩ := r
  cases m with
  | none => exact absurd rfl hinit
  | some es =>
    refine ⟨_, _, rfl, rfl, ?_, ?_, ?_⟩
    · simp [Get, mapIndex, findEntry]
    · simp only [entryCount, entries, entriesFor, List.filter_cons, decide_True, if_true,
        decide_not, Bool.not_true, Bool.false_eq_true, if_false]
      have h := entriesFor_filter_ne (es.filter (fun e => !decide (e.1 = k))) k
      unfold entriesFor at h
      simp only [List.filter_filter] at h ⊢
      simp [h]
    · simp only [entries, entriesFor, List.filter_cons, decide_True, if_true,
        decide_not, Bool.not_true, Bool.false_eq_true, if_false]
      have h := entriesFor_filter_ne (es.filter (fun e => !decide (e.1 = k))) k
      unfold entriesFor at h
      simp only [List.filter_filter] at h ⊢
      simp [h]

theorem last_write_wins_witness :
    (Registry.mk (some [("a", GoAny.int 1), ("b", GoAny.nil)])).registry ≠ none ∧
    ∃ r1 r2,
      Register (Registry.mk (some [("a", GoAny.int 1), ("b", GoAny.nil)])) "a" (GoAny.int 7)
        = Except.ok r1 ∧
      Register r1 "a" (GoAny.str "x") = Except.ok r2 ∧
      Get r2 "a" = Except.ok (GoAny.str "x", r2) ∧ entryCount r2 "a" = 1 ∧
      entries r2 "a" = [("a", GoAny.str "x")] :=
  ⟨by decide, last_write_wins _ "a" (GoAny.int 7) (GoAny.str "x") (by decide)⟩

/-- C10: `Register` touches only its own key, and `Get` changes nothing. For every
Registry holding an initialised map, every key `k`, value `v` and key `k2`
different from `k`, `Get(k2)` returns after `Register(k, v)` the value it returned
before; and for every Registry and key, `Get` returns with the Registry unchanged. -/
theorem register_frame (r : Registry) (k k2 : String) (v : GoAny)
    (hinit : r.registry ≠ none) (hne : k2 ≠ k) :
    (∃ r1 x, Register r k v = Except.ok r1 ∧ Get r k2 = Except.ok (x, r) ∧
      Get r1 k2 = Except.ok (x, r1)) ∧
    (∀ (r0 : Registry) (k0 : String), ∃ x, Get r0 k0 = Except.ok (x, r0)) := by
  constructor
  · obtain ⟨m⟩ := r
    cases m with
    | none => exact absurd rfl hinit
    | some es =>
      refine ⟨_, mapIndex (some es) k2, rfl, rfl, ?_⟩
      have hk : ¬ k = k2 := fun h2 => hne h2.symm
      simp [Get, mapIndex, findEntry, hk, findEntry_filter_ne es k k2 hne]
  · intro r0 k0
    exact ⟨_, rfl⟩

theorem register_frame_witness :
    ((Registry.mk (some [("a", GoAny.int 1), ("b", GoAny.bool true)])).registry ≠ none ∧
      "b" ≠ "a") ∧
    ((∃ r1 x,
        Register (Registry.mk (some [("a", GoAny.int 1), ("b", GoAny.bool true)])) "a"
          (GoAny.int 5) = Except.ok r1 ∧
        Get (Registry.mk (some [("a", GoAny.int 1), ("b", GoAny.bool true)])) "b" =
          Except.ok (x, Registry.mk (some [("a", GoAny.int 1), ("b", GoAny.bool true)])) ∧
        Get r1 "b" = Except.ok (x, r1)) ∧
      (∀ (r0 : Registry) (k0 : String), ∃ x, Get r0 k0 = Except.ok (x, r0))) :=
  ⟨⟨by decide, by decide⟩, register_frame _ "a" "b" (GoAny.int 5) (by decide) (by decide)⟩

end registry

/-! ## Lemmas on `mediator` -/

namespace mediator

/-- What the loop of `Broadcast` does to each component of the state. -/
theorem broadcastLoop_spec (sender : Nat) (message : String) (cs : List Nat) (w : World) :
    (broadcastLoop sender message cs w).users = w.users ∧
    (broadcastLoop sender message cs w).nextUser = w.nextUser ∧
    (broadcastLoop sender message cs w).mediators = w.mediators ∧
    (broadcastLoop sender message cs w).nextMediator = w.nextMediator ∧
    (broadcastLoop sender message cs w).calls =
      w.calls ++ (cs.filter (fun c => !decide (c = sender))).map (fun c => (c, message)) ∧
    (broadcastLoop sender message cs w).out =
      w.out ++ (cs.filter (fun c => !decide (c = sender))).map
        (fun c => receivedLine (w.users c).name message) := by
  induction cs generalizing w with
  | nil => simp [broadcastLoop]
  | cons c cs ih =>
    by_cases h : c = sender
    · simp only [broadcastLoop, h, if_true]
      simpa using ih w
    · simp only [broadcastLoop, h, if_false]
      obtain ⟨h1, h2, h3, h4, h5, h6⟩ := ih (Receive w c message)
      refine ⟨h1, h2, h3, h4, ?_, ?_⟩
      · rw [h5]; simp [Receive, List.filter_cons, h]
      · rw [h6]; simp [Receive, List.filter_cons, h]

theorem sendMessage_mediators (w w1 : World) (u : Nat) (message : String)
    (h : SendMessage w u message = Except.ok w1) : w1.mediators = w.mediators := by
  unfold SendMessage at h
  cases hm : (w.users u).mediator with
  | none => simp [hm] at h
  | some m =>
    simp only [hm, Except.ok.injEq] at h
    rw [← h]
    exact (broadcastLoop_spec u message _ w).2.2.1

theorem addColleague_nodup (w : World) (m c : Nat)
    (h : ∀ k, (w.mediators k).colleagues.Nodup) :
    ∀ k, ((AddColleague w m c).mediators k).colleagues.Nodup := by
  intro k
  unfold AddColleague
  by_cases hc : c ∈ (w.mediators m).colleagues
  · simpa [hc] using h k
  · simp only [hc, if_false]
    by_cases hk : k = m
    · subst hk
      simp only [Function.update_same]
      exact List.Nodup.append (h k) (List.nodup_singleton c) (by simpa using hc)
    · simpa [Function.update_noteq hk] using h k

/-- In every reachable state no membership list holds a Participant twice. -/
theorem reachable_nodup (w : World) (h : Reachable w) :
    ∀ k, (w.mediators k).colleagues.Nodup := by
  induction h with
  | init => intro k; simp [World.init]
  | newMediator w _ ih =>
    intro k
    by_cases hk : k = w.nextMediator
    · simp [NewConcreteMediator, hk]
    · simpa [NewConcreteMediator, Function.update_noteq hk] using ih k
  | newUser w name _ ih => intro k; simpa [NewUser] using ih k
  | addColleague w m c _ ih => exact addColleague_nodup w m c ih
  | setMidiator w u m _ ih => intro k; simpa [SetMidiator] using ih k
  | sendMessage w w1 u message _ hs ih =>
    intro k
    rw [sendMessage_mediators w w1 u message hs]
    exact ih k

theorem addColleagues_nodup (m : Nat) (cs : List Nat) (w : World)
    (h : ∀ k, (w.mediators k).colleagues.Nodup) :
    ∀ k, ((addColleagues w m cs).mediators k).colleagues.Nodup := by
  induction cs generalizing w with
  | nil => simpa [addColleagues] using h
  | cons c cs ih =>
    simp only [addColleagues]
    exact ih _ (addColleague_nodup w m c h)

/-- Registering the distinct Participants `ps`, none of which is a member yet,
appends them to the membership list, in their order. -/
theorem addColleagues_append (m : Nat) (ps : List Nat) (w : World)
    (hnd : ps.Nodup) (hdisj : ∀ p ∈ ps, p ∉ (w.mediators m).colleagues) :
    ((addColleagues w m ps).mediators m).colleagues = (w.mediators m).colleagues ++ ps := by
  induction ps generalizing w with
  | nil => simp [addColleagues]
  | cons p ps ih =>
    have hp : p ∉ (w.mediators m).colleagues := hdisj p (List.mem_cons_self _ _)
    have hstep : ((AddColleague w m p).mediators m).colleagues =
        (w.mediators m).colleagues ++ [p] := by
      simp [AddColleague, hp]
    simp only [addColleagues]
    rw [ih (AddColleague w m p) (List.nodup_cons.mp hnd).2, hstep]
    · simp
    · intro q hq
      rw [hstep]
      simp only [List.mem_append, List.mem_singleton, not_or]
      refine ⟨hdisj q (List.mem_cons_of_mem _ hq), ?_⟩
      rintro rfl
      exact (List.nodup_cons.mp hnd).1 hq

theorem length_filter_ne (cs : List Nat) (s : Nat) (hnd : cs.Nodup) (hs : s ∈ cs) :
    (cs.filter (fun c => !decide (c = s))).length = cs.length - 1 := by
  induction cs with
  | nil => simp at hs
  | cons c cs ih =>
    obtain ⟨hc, hnd2⟩ := List.nodup_cons.mp hnd
    by_cases h : c = s
    · subst h
      have : cs.filter (fun x => !decide (x = c)) = cs := by
        apply List.filter_eq_self.mpr
        intro a ha
        have : a ≠ c := fun e => hc (e ▸ ha)
        simp [this]
      simp [List.filter_cons, this]
    · have hs2 : s ∈ cs := by
        rcases List.mem_cons.mp hs with h1 | h1
        · exact absurd h1.symm h
        · exact h1
      have hpos : 0 < cs.length := List.length_pos_of_mem hs2
      simp only [List.filter_cons, h, decide_False, Bool.not_false, if_true, List.length_cons,
        ih hnd2 hs2]
      omega

end mediator

/-! ## Theorems on `mediator` -/

namespace mediator

/-- C5: for every reachable state, every Mediator `m` with N registered
Participants and every registered Participant `s` attached to `m`, `s.SendMessage`
returns normally, and the `Receive` calls it makes are N-1 in number, exactly one
on each registered Participant other than `s`, none on `s`, each with the message sent. -/
theorem broadcast_once_each (w : World) (m s : Nat) (message : String)
    (hreach : Reachable w) (hreg : s ∈ (w.mediators m).colleagues)
    (hatt : (w.users s).mediator = some m) :
    ∃ w1 delivered, SendMessage w s message = Except.ok w1 ∧
      w1.calls = w.calls ++ delivered ∧
      delivered.length = (w.mediators m).colleagues.length - 1 ∧
      (∀ p ∈ (w.mediators m).colleagues, p ≠ s → (delivered.map Prod.fst).count p = 1) ∧
      s ∉ delivered.map Prod.fst ∧
      (∀ e ∈ delivered, e.1 ∈ (w.mediators m).colleagues ∧ e.2 = message) := by
  have hnd := reachable_nodup w hreach m
  have hspec := broadcastLoop_spec s message (w.mediators m).colleagues w
  refine ⟨Broadcast w m s message, _, ?_, hspec.2.2.2.2.1, ?_, ?_, ?_, ?_⟩
  · simp [SendMessage, hatt]
  · rw [List.length_map]
    exact length_filter_ne _ s hnd hreg
  · intro p hp hps
    have hfst : (fun c : Nat => (c, message).1) = id := rfl
    rw [List.map_map]
    show List.count p (List.map (fun c : Nat => (c, message).1) _) = 1
    rw [hfst, List.map_id]
    apply List.count_eq_one_of_mem (hnd.filter _)
    simp [List.mem_filter, hp, hps]
  · simp [List.mem_map, List.mem_filter]
  · intro e he
    simp only [List.mem_map, List.mem_filter] at he
    obtain ⟨c, ⟨hc, _⟩, rfl⟩ := he
    exact ⟨hc, rfl⟩

theorem exampleSetup_reachable : Reachable exampleSetup.2 :=
  Reachable.setMidiator _ _ _ (Reachable.setMidiator _ _ _ (Reachable.setMidiator _ _ _
    (Reachable.addColleague _ _ _ (Reachable.addColleague _ _ _ (Reachable.addColleague _ _ _
      (Reachable.newUser _ "Charlie" (Reachable.newUser _ "Bob" (Reachable.newUser _ "Alice"
        (Reachable.newMediator _ Reachable.init)))))))))

theorem broadcast_once_each_witness :
    (Reachable exampleSetup.2 ∧ 1 ∈ (exampleSetup.2.mediators 0).colleagues ∧
      (exampleSetup.2.users 1).mediator = some 0) ∧
    ∃ w1 delivered, SendMessage exampleSetup.2 1 "Hi, there!" = Except.ok w1 ∧
      w1.calls = exampleSetup.2.calls ++ delivered ∧
      delivered.length = (exampleSetup.2.mediators 0).colleagues.length - 1 ∧
      (∀ p ∈ (exampleSetup.2.mediators 0).colleagues, p ≠ 1 →
        (delivered.map Prod.fst).count p = 1) ∧
      1 ∉ delivered.map Prod.fst ∧
      (∀ e ∈ delivered, e.1 ∈ (exampleSetup.2.mediators 0).colleagues ∧ e.2 = "Hi, there!") :=
  ⟨⟨exampleSetup_reachable, by decide, by decide⟩,
   broadcast_once_each exampleSetup.2 0 1 "Hi, there!" exampleSetup_reachable
     (by decide) (by decide)⟩

/-- C6: (1) registering distinct Participants on a Mediator with no member makes
the membership list the list registered, in that order; (2) for every state, every
Mediator `m`, every registered sender `s` attached to `m` and every message,
`s.SendMessage` returns normally and prints exactly the lines
`[<name>] Received message: <message>`, one per registered Participant other than
`s`, in registration order; (3) `ExampleMediator` prints the six lines the test expects. -/
theorem sendMessage_output :
    (∀ (w : World) (m : Nat) (ps : List Nat), ps.Nodup → (w.mediators m).colleagues = [] →
      ((addColleagues w m ps).mediators m).colleagues = ps) ∧
    (∀ (w : World) (m s : Nat) (message : String),
      s ∈ (w.mediators m).colleagues → (w.users s).mediator = some m →
      ∃ w1, SendMessage w s message = Except.ok w1 ∧
        w1.out = w.out ++
          ((w.mediators m).colleagues.filter (fun c => !decide (c = s))).map
            (fun c => "[" ++ (w.users c).name ++ "] Received message: " ++ message)) ∧
    ExampleMediator = Except.ok
      ["[Bob] Received message: Hello, everyone!",
       "[Charlie] Received message: Hello, everyone!",
       "[Alice] Received message: Hi, there!",
       "[Charlie] Received message: Hi, there!",
       "[Alice] Received message: Hey, guys!",
       "[Bob] Received message: Hey, guys!"] := by
  refine ⟨?_, ?_, rfl⟩
  · intro w m ps hnd hempty
    have h := addColleagues_append m ps w hnd (by simp [hempty])
    simpa [hempty] using h
  · intro w m s message _ hatt
    refine ⟨Broadcast w m s message, ?_, ?_⟩
    · simp [SendMessage, hatt]
    · exact (broadcastLoop_spec s message (w.mediators m).colleagues w).2.2.2.2.2

theorem sendMessage_output_witness :
    (([4, 2, 7] : List Nat).Nodup ∧ (World.init.mediators 0).colleagues = [] ∧
      ((addColleagues World.init 0 [4, 2, 7]).mediators 0).colleagues = [4, 2, 7]) ∧
    ((2 ∈ (exampleSetup.2.mediators 0).colleagues ∧
      (exampleSetup.2.users 2).mediator = some 0) ∧
      ∃ w1, SendMessage exampleSetup.2 2 "Hey, guys!" = Except.ok w1 ∧
        w1.out = exampleSetup.2.out ++
          ((exampleSetup.2.mediators 0).colleagues.filter (fun c => !decide (c = 2))).map
            (fun c => "[" ++ (exampleSetup.2.users c).name ++ "] Received message: " ++
              "Hey, guys!")) :=
  ⟨⟨by decide, by decide, sendMessage_output.1 World.init 0 [4, 2, 7] (by decide) (by decide)⟩,
   ⟨by decide, by decide⟩,
   sendMessage_output.2.1 exampleSetup.2 0 2 "Hey, guys!" (by decide) (by decide)⟩

/-- C7: `AddColleague` keeps the membership duplicate-free and is idempotent.
(1) In every reachable state each membership list holds each Participant at
most once; (2) every sequence of `AddColleague` calls, repeated Participants
included, on a Mediator whose list is duplicate-free leaves it duplicate-free;
(3) adding a Participant that is already registered leaves the state unchanged. -/
theorem addColleague_idempotent_nodup :
    (∀ (w : World), Reachable w → ∀ (m c : Nat), (w.mediators m).colleagues.count c ≤ 1) ∧
    (∀ (w : World) (m : Nat) (cs : List Nat), (∀ k, (w.mediators k).colleagues.Nodup) →
      ((addColleagues w m cs).mediators m).colleagues.Nodup) ∧
    (∀ (w : World) (m c : Nat), c ∈ (w.mediators m).colleagues → AddColleague w m c = w) := by
  refine ⟨?_, ?_, ?_⟩
  · intro w hreach m c
    exact List.nodup_iff_count_le_one.mp (reachable_nodup w hreach m) c
  · intro w m cs h
    exact addColleagues_nodup m cs w h m
  · intro w m c hc
    simp [AddColleague, hc]

theorem addColleague_idempotent_nodup_witness :
    (Reachable exampleSetup.2 ∧ (exampleSetup.2.mediators 0).colleagues.count 1 ≤ 1) ∧
    ((∀ k, (World.init.mediators k).colleagues.Nodup) ∧
      ((addColleagues World.init 0 [1, 2, 1, 1, 3, 2]).mediators 0).colleagues.Nodup ∧
      ((addColleagues World.init 0 [1, 2, 1, 1, 3, 2]).mediators 0).colleagues = [1, 2, 3]) ∧
    (1 ∈ (exampleSetup.2.mediators 0).colleagues ∧
      AddColleague exampleSetup.2 0 1 = exampleSetup.2) :=
  ⟨⟨exampleSetup_reachable,
      addColleague_idempotent_nodup.1 exampleSetup.2 exampleSetup_reachable 0 1⟩,
   ⟨fun _ => List.nodup_nil,
      addColleague_idempotent_nodup.2.1 World.init 0 [1, 2, 1, 1, 3, 2]
        (fun _ => List.nodup_nil),
      by decide⟩,
   ⟨by decide, addColleague_idempotent_nodup.2.2 exampleSetup.2 0 1 (by decide)⟩⟩

end mediator

/-! ## Theorems on `singleton` -/

namespace singleton

/-- C8: for every state and every integer `n`, after `InitEager(n)` a call of
`GetEager` returns a pointer that is not nil, the object it points to is equal to
`Eager{count: n}`, and the call leaves the state as it was; with `n = 3` the
assertion of `TestGetEager` holds. -/
theorem getEager_after_initEager (s : State) (n : Int) :
    (∃ p, GetEager (InitEager s n) = (some p, InitEager s n) ∧
      (InitEager s n).heap p = { count := n }) ∧
    TestGetEager = true := by
  refine ⟨⟨s.next, rfl, ?_⟩, by decide⟩
  simp [InitEager]

end singleton

/-! ## Theorems on `funcionaloption` -/

namespace funcionaloption

/-- C9: for every duration `t`, `NewHTTPClient(WithTimeout(t))` returns normally a
client whose `Timeout` is `t` (its other fields are unset), applying
`WithTimeout(t)` to any `HTTPClient` returns normally with its `Timeout` set to `t`,
and with `t` = 5 seconds, as in the example, the `Timeout` is 5000000000 ns. -/
theorem withTimeout_sets_timeout (t : Int) :
    NewHTTPClient [WithTimeout t] =
      Except.ok { Transport := none, CheckRedirect := none, Jar := none, Timeout := t } ∧
    (∀ hc : HTTPClient, ∃ hc1, callOption (WithTimeout t) hc = Except.ok hc1 ∧
      hc1.Timeout = t) ∧
    (∃ c, NewHTTPClient [WithTimeout (5 * Second)] = Except.ok c ∧ c.Timeout = 5000000000) := by
  refine ⟨rfl, ?_, ?_⟩
  · intro hc
    exact ⟨_, rfl, rfl⟩
  · exact ⟨_, rfl, by decide⟩

end funcionaloption

/-! ## Further theorems on `registry` -/

namespace registry

/-- C11: a nil result of `Get` does not identify absence. On every Registry holding
an initialised map, after `Register(k, nil)` the key `k` is present and `Get(k)`
returns nil; there is a Registry, made by registering `k` with nil, where `Get`
returns nil both for the present key `k` and for a key never registered; so
`Get(k)` = nil does not imply that `k` is absent. -/
theorem get_nil_not_absence :
    (∀ (r : Registry) (k : String), r.registry ≠ none →
      ∃ r1, Register r k GoAny.nil = Except.ok r1 ∧ mapHasKey r1.registry k = true ∧
        Get r1 k = Except.ok (GoAny.nil, r1)) ∧
    (∃ (r0 r : Registry) (k k2 : String), Register r0 k GoAny.nil = Except.ok r ∧
      mapHasKey r.registry k = true ∧ mapHasKey r.registry k2 = false ∧
      Get r k = Except.ok (GoAny.nil, r) ∧ Get r k2 = Except.ok (GoAny.nil, r)) ∧
    ¬ (∀ (r : Registry) (k : String), Get r k = Except.ok (GoAny.nil, r) →
      mapHasKey r.registry k = false) := by
  refine ⟨?_, ?_, ?_⟩
  · intro r k hinit
    obtain ⟨m⟩ := r
    cases m with
    | none => exact absurd rfl hinit
    | some es =>
      refine ⟨_, rfl, ?_, ?_⟩
      · simp [mapHasKey, findEntry]
      · simp [Get, mapIndex, findEntry]
  · exact ⟨Registry.mk (some []), Registry.mk (some [("a", GoAny.nil)]), "a", "b",
      rfl, by decide, by decide, rfl, rfl⟩
  · intro h
    have h1 := h (Registry.mk (some [("a", GoAny.nil)])) "a" rfl
    exact absurd h1 (by decide)

theorem get_nil_not_absence_witness :
    (Registry.mk (some [("b", GoAny.int 2)])).registry ≠ none ∧
    ∃ r1, Register (Registry.mk (some [("b", GoAny.int 2)])) "a" GoAny.nil = Except.ok r1 ∧
      mapHasKey r1.registry "a" = true ∧ Get r1 "a" = Except.ok (GoAny.nil, r1) :=
  ⟨by decide, get_nil_not_absence.1 (Registry.mk (some [("b", GoAny.int 2)])) "a" (by decide)⟩

end registry

/-! ## Further theorems on `funcionaloption` -/

namespace funcionaloption

/-- The loop of `NewHTTPClient` over options none of which is nil is a left fold. -/
theorem applyOptions_some (fs : List (HTTPClient → HTTPClient)) (hc : HTTPClient) :
    applyOptions (fs.map some) hc = Except.ok (fs.foldl (fun c f => f c) hc) := by
  induction fs generalizing hc with
  | nil => rfl
  | cons f fs ih => simpa [applyOptions, callOption] using ih (f hc)

theorem map_withTimeout (ts : List Int) :
    ts.map WithTimeout =
      (ts.map (fun (t : Int) (hc : HTTPClient) => ({ hc with Timeout := t } : HTTPClient))).map
        some := by
  rw [List.map_map]
  rfl

theorem foldl_withTimeout (ts : List Int) (h : ts ≠ []) (hc : HTTPClient) :
    ((ts.map (fun (t : Int) (c : HTTPClient) => ({ c with Timeout := t } : HTTPClient))).foldl
      (fun c f => f c) hc).Timeout = ts.getLast h := by
  rcases List.eq_nil_or_concat ts with hnil | ⟨init, t, rfl⟩
  · exact absurd hnil h
  · simp [List.foldl_append]

/-- C12: `NewHTTPClient` folds its options left to right over the default
configuration. With no options the client's `Timeout` is 10 seconds, the value of
`DefaultHTTPClient`; for options none of which is nil the `Timeout` is that of the
left fold of the options over `DefaultHTTPClient`; and for every non-empty list of
options built from `WithTimeout` it is the duration of the last option. -/
theorem newHTTPClient_folds_options :
    (∃ c, NewHTTPClient [] = Except.ok c ∧ c.Timeout = DefaultHTTPClient.Timeout ∧
      c.Timeout = 10000000000) ∧
    (∀ fs : List (HTTPClient → HTTPClient), ∃ c, NewHTTPClient (fs.map some) = Except.ok c ∧
      c.Timeout = (fs.foldl (fun hc f => f hc) DefaultHTTPClient).Timeout) ∧
    (∀ (ts : List Int) (h : ts ≠ []), ∃ c,
      NewHTTPClient (ts.map WithTimeout) = Except.ok c ∧ c.Timeout = ts.getLast h) := by
  refine ⟨⟨_, rfl, rfl, by decide⟩, ?_, ?_⟩
  · intro fs
    refine ⟨{ Transport := none, CheckRedirect := none, Jar := none,
              Timeout := (fs.foldl (fun hc f => f hc) DefaultHTTPClient).Timeout }, ?_, rfl⟩
    simp [NewHTTPClient, applyOptions_some]
  · intro ts h
    refine ⟨{ Transport := none, CheckRedirect := none, Jar := none,
              Timeout := ts.getLast h }, ?_, rfl⟩
    unfold NewHTTPClient
    rw [map_withTimeout, applyOptions_some]
    simp only [foldl_withTimeout ts h]

theorem newHTTPClient_folds_options_witness :
    ([3 * Second, 5 * Second, 2 * Second] : List Int) ≠ [] ∧
    ∃ c, NewHTTPClient ([3 * Second, 5 * Second, 2 * Second].map WithTimeout) = Except.ok c ∧
      c.Timeout = 2 * Second :=
  ⟨by decide, newHTTPClient_folds_options.2.2 [3 * Second, 5 * Second, 2 * Second] (by decide)⟩

end funcionaloption

/-! ## Further theorems on `singleton` -/

namespace singleton

theorem wrapInt_of_range (n : Int) (hlo : -(2 : Int) ^ 63 ≤ n) (hhi : n < (2 : Int) ^ 63) :
    wrapInt n = n := by
  unfold wrapInt
  norm_num at hlo hhi ⊢
  omega

theorem wrapInt_succ (c : Int) : wrapInt (wrapInt c + 1) = wrapInt (c + 1) := by
  unfold wrapInt
  norm_num
  omega

/-- After `k` calls of `Inc` through `p` the count of the object at `p` has grown by `k`,
wrapping, and nothing else of the package state has changed. -/
theorem incTimes_spec (p : Nat) (k : Nat) (s : State) (c : Int)
    (hc : (s.heap p).count = wrapInt c) :
    ∃ s1, incTimes (some p) k s = Except.ok s1 ∧ s1.eager = s.eager ∧ s1.next = s.next ∧
      (s1.heap p).count = wrapInt (c + k) := by
  induction k generalizing s c with
  | zero => exact ⟨s, rfl, rfl, rfl, by simpa using hc⟩
  | succ k ih =>
    have hstep : ((Function.update s.heap p
        { count := wrapInt ((s.heap p).count + 1) } : Nat → Eager) p).count =
        wrapInt (c + 1) := by
      simp [hc, wrapInt_succ]
    obtain ⟨s1, h1, h2, h3, h4⟩ :=
      ih { s with heap := Function.update s.heap p { count := wrapInt ((s.heap p).count + 1) } }
        (c + 1) hstep
    refine ⟨s1, ?_, h2, h3, ?_⟩
    · simpa [incTimes, Inc] using h1
    · rw [h4]
      congr 1
      push_cast
      ring

/-- Calls of `Inc` through a non-nil pointer return normally and change neither the
package variable `eager` nor the next free address. -/
theorem incTimes_frame (p : Nat) (k : Nat) (s : State) :
    ∃ s1, incTimes (some p) k s = Except.ok s1 ∧ s1.eager = s.eager ∧ s1.next = s.next := by
  induction k generalizing s with
  | zero => exact ⟨s, rfl, rfl, rfl⟩
  | succ k ih =>
    obtain ⟨s1, h1, h2, h3⟩ :=
      ih { s with heap := Function.update s.heap p { count := wrapInt ((s.heap p).count + 1) } }
    exact ⟨s1, by simpa [incTimes, Inc] using h1, h2, h3⟩

/-- C13: for every integer `n` of Go's `int` range and every natural number `k`, after
`InitEager(n)` and `k` calls of `Inc` on the instance that `GetEager` returned,
`GetEager` returns the same instance, whose count is `n + k` wrapped to 64 bits;
each `Inc` through a non-nil pointer returns normally and raises the count by 1
(wrapping; exactly `count + 1` below the largest `int`); `GetEager` changes nothing. -/
theorem inc_counts (s : State) (n : Int) (k : Nat)
    (hlo : -(2 : Int) ^ 63 ≤ n) (hhi : n < (2 : Int) ^ 63) :
    (∃ p s1, GetEager (InitEager s n) = (some p, InitEager s n) ∧
      incTimes (some p) k (InitEager s n) = Except.ok s1 ∧
      GetEager s1 = (some p, s1) ∧ (s1.heap p).count = wrapInt (n + k)) ∧
    (∀ (s0 : State) (p : Nat), ∃ s1, Inc s0 (some p) = Except.ok s1 ∧
      (s1.heap p).count = wrapInt ((s0.heap p).count + 1) ∧
      (-(2 : Int) ^ 63 ≤ (s0.heap p).count + 1 → (s0.heap p).count + 1 < (2 : Int) ^ 63 →
        (s1.heap p).count = (s0.heap p).count + 1)) ∧
    (∀ s0 : State, (GetEager s0).2 = s0) := by
  refine ⟨?_, ?_, fun _ => rfl⟩
  · have h0 : ((InitEager s n).heap s.next).count = wrapInt n := by
      simp [InitEager, wrapInt_of_range n hlo hhi]
    obtain ⟨s1, h1, h2, _, h4⟩ := incTimes_spec s.next k (InitEager s n) n h0
    refine ⟨s.next, s1, rfl, h1, ?_, h4⟩
    simp only [GetEager, h2]
    rfl
  · intro s0 p
    refine ⟨_, rfl, by simp, ?_⟩
    intro h1 h2
    simp [wrapInt_of_range _ h1 h2]

theorem inc_counts_witness :
    (-(2 : Int) ^ 63 ≤ 3 ∧ (3 : Int) < (2 : Int) ^ 63) ∧
    ∃ p s1, GetEager (InitEager State.init 3) = (some p, InitEager State.init 3) ∧
      incTimes (some p) 4 (InitEager State.init 3) = Except.ok s1 ∧
      GetEager s1 = (some p, s1) ∧ (s1.heap p).count = wrapInt (3 + (4 : Nat)) :=
  ⟨⟨by decide, by decide⟩, (inc_counts State.init 3 4 (by decide) (by decide)).1⟩

/-- C14: the eager singleton is not initialise-once. Before any `InitEager` call
`GetEager` returns nil; and for all integers `a` and `b` and every number `k` of `Inc`
calls on the instance of `InitEager(a)`, after a following `InitEager(b)` `GetEager`
returns a new instance, different from the earlier one, whose count is `b`. -/
theorem initEager_replaces (s : State) (a b : Int) (k : Nat) :
    GetEager State.init = (none, State.init) ∧
    ∃ p s1 q, GetEager (InitEager s a) = (some p, InitEager s a) ∧
      incTimes (some p) k (InitEager s a) = Except.ok s1 ∧
      GetEager (InitEager s1 b) = (some q, InitEager s1 b) ∧
      ((InitEager s1 b).heap q).count = b ∧ q ≠ p := by
  refine ⟨rfl, ?_⟩
  obtain ⟨s1, h1, _, h3⟩ := incTimes_frame s.next k (InitEager s a)
  refine ⟨s.next, s1, s1.next, rfl, h1, rfl, by simp [InitEager], ?_⟩
  rw [h3]
  simp [InitEager]

end singleton
